import Mathlib

/-!  Shallow embedding of the e-commerce dataset generator
(`dataset_generator.py`): the inventory ledger (`InventoryManager`), the
browsing state machine (`determine_page_type` / `get_page_content`), the
session synthesizer, the transaction synthesizer and the bounded
generation driver, together with proofs of the specification's
properties.  Randomness is made explicit: every call of the Python
random library is replaced by an oracle argument (a natural-number index
draw for `random.choice` / `random.randint`, a rational draw for
`random.random` / `random.choices` with weights, a boolean for
probability coin flips).  Machine floats are modelled by exact rationals
with explicit rounding to two decimals. -/

namespace ECom

/-- Rounding to two decimal places on exact rationals: the model of
Python's round(x, 2) applied to monetary values. -/
def round2 (q : ℚ) : ℚ := ((round (q * 100) : ℤ) : ℚ) / 100

/-- Model of random.randint(lo, hi): the draw r is mapped into the
closed interval [lo, hi] (for hi ≥ lo every value is reachable). -/
def randint (lo hi : Int) (r : Nat) : Int := lo + (r : Int) % (hi - lo + 1)

/-- A catalog product as generated by the catalog bootstrap and owned by
the inventory ledger (only the fields the core reads). -/
structure Product where
  product_id : Nat
  category_id : Nat
  base_price : ℚ
  current_stock : Int
  is_active : Bool
deriving DecidableEq

/-- A catalog category (only its identifier is read by the core). -/
structure Category where
  category_id : Nat
deriving DecidableEq

/-- A cart entry: quantity plus the price snapshotted at add time. -/
structure CartEntry where
  quantity : Int
  price : ℚ
deriving DecidableEq

/-- One page view of a session; the timestamp is the offset in seconds
from the session start (datetime arithmetic is monotone in it). -/
structure PageView where
  timestamp : Nat
  page_type : String
  product_id : Option Nat
  category_id : Option Nat
  view_duration : Int
deriving DecidableEq

/-- One transaction item. -/
structure TxnItem where
  product_id : Nat
  quantity : Int
  unit_price : ℚ
  subtotal : ℚ
deriving DecidableEq

/-- A transaction record (the monetary fields and the items; the id,
timestamp, payment method and status strings carry no invariants). -/
structure Txn where
  items : List TxnItem
  subtotal : ℚ
  discount : ℚ
  total : ℚ
deriving DecidableEq

/-- An emitted session record (the fields the properties speak about). -/
structure Session where
  duration_seconds : Nat
  viewed_products : List Nat
  page_views : List PageView
  cart_contents : List (Nat × CartEntry)
  conversion_status : String
deriving DecidableEq

/-! ### Inventory manager

`InventoryManager.products` is a dict keyed by product_id whose values
alias the catalog list; we model it as the list itself, with dict lookup
as first-match search (the generated catalog has unique ids). -/

/-- Dict lookup self.products.get(product_id). -/
def lookupProduct (ps : List Product) (pid : Nat) : Option Product :=
  ps.find? (fun p => p.product_id == pid)

/-- The current stock of a product id, 0 when absent (the generator only
asks for ids present in the catalog). -/
def getStockD (ps : List Product) (pid : Nat) : Int :=
  match lookupProduct ps pid with
  | some p => p.current_stock
  | none => 0

/-- In-place decrement p["current_stock"] -= quantity on the dict entry
for pid (the first list entry with that id). -/
def decStock : List Product → Nat → Int → List Product
  | [], _, _ => []
  | p :: ps, pid, q =>
    if p.product_id == pid then { p with current_stock := p.current_stock - q } :: ps
    else p :: decStock ps pid q

/-- InventoryManager.update_stock: inside the lock, look the product up;
if absent return False; if current_stock ≥ quantity decrement and return
True; otherwise return False.  Returns the flag and the new ledger. -/
def update_stock (ps : List Product) (pid : Nat) (q : Int) : Bool × List Product :=
  match lookupProduct ps pid with
  | none => (false, ps)
  | some p => if q ≤ p.current_stock then (true, decStock ps pid q) else (false, ps)

/-- A ledger operation: a reserve (update_stock) or a read-only
get_product; used to state the non-negativity invariant over arbitrary
operation sequences. -/
inductive LedgerOp where
  | reserve (pid : Nat) (qty : Int)
  | peek (pid : Nat)
deriving DecidableEq

/-- Apply one ledger operation to the ledger state (get_product does not
mutate). -/
def applyOp (ps : List Product) : LedgerOp → List Product
  | .reserve pid qty => (update_stock ps pid qty).2
  | .peek _ => ps

/-- Apply a sequence of ledger operations in order. -/
def runOps (ps : List Product) (ops : List LedgerOp) : List Product :=
  ops.foldl applyOp ps

/-- Quantity discipline of an operation: reservations request ≥ 1. -/
def opQtyOK : LedgerOp → Bool
  | .reserve _ q => decide (1 ≤ q)
  | .peek _ => true

/-! ### Browsing state machine -/

/-- Model of random.choices(options, weights)[0]: walk the cumulative
weights with a rational draw r taken from [0, Σ weights). -/
def weightedChoice : List (String × ℚ) → ℚ → String
  | [], _ => ""
  | [(a, _)], _ => a
  | (a, w) :: rest, r => if r < w then a else weightedChoice rest (r - w)

/-- The transition weight table of the home state. -/
def homeTable : List (String × ℚ) :=
  [("category_listing", 1/2), ("search", 3/10), ("product_detail", 1/5)]

/-- determine_page_type: at position 0, uniformly choose among home /
search / category_listing (index draw u); otherwise read the previous
page type from the history (home when the history is empty) and draw
from the weighted distribution of that state; any other previous page
type yields the literal page "home". -/
def determine_page_type (position : Nat) (previous_pages : List PageView)
    (u : Nat) (r : ℚ) : String :=
  if position == 0 then
    ["home", "search", "category_listing"].getD (u % 3) "home"
  else
    let prev_page := match previous_pages.getLast? with
      | some pv => pv.page_type
      | none => "home"
    if prev_page == "home" then
      weightedChoice homeTable r
    else if prev_page == "category_listing" then
      weightedChoice [("product_detail", 7/10), ("category_listing", 1/10),
        ("search", 1/10), ("home", 1/10)] r
    else if prev_page == "search" then
      weightedChoice [("product_detail", 3/5), ("search", 1/5),
        ("category_listing", 1/10), ("home", 1/10)] r
    else if prev_page == "product_detail" then
      weightedChoice [("product_detail", 3/10), ("cart", 3/10),
        ("category_listing", 1/5), ("search", 1/10), ("home", 1/10)] r
    else if prev_page == "cart" then
      weightedChoice [("checkout", 3/5), ("product_detail", 1/5),
        ("category_listing", 1/10), ("home", 1/10)] r
    else if prev_page == "checkout" then
      weightedChoice [("confirmation", 4/5), ("cart", 1/10), ("home", 1/10)] r
    else if prev_page == "confirmation" then
      weightedChoice [("home", 3/5), ("product_detail", 1/5),
        ("category_listing", 1/5)] r
    else "home"

/-- The retry loop of get_page_content on a product_detail page: up to
ten uniformly random draws (the draw list supplied by the run has ten
entries), keeping the first active in-stock product. -/
def pickActive (ps : List Product) : List Nat → Option Product
  | [] => none
  | d :: ds =>
    match ps[(d % ps.length)]? with
    | some p => if p.is_active && decide (0 < p.current_stock) then some p else pickActive ps ds
    | none => pickActive ps ds

/-- get_page_content: on product_detail, retry up to ten times for an
active in-stock product, then fall back to an unrestricted random
product; on category_listing pick a random category; otherwise no
content.  The category is resolved from the product's category_id. -/
def get_page_content (page_type : String) (ps : List Product) (cats : List Category)
    (retryDraws : List Nat) (finalDraw : Nat) (catDraw : Nat) :
    Option Product × Option Category :=
  if page_type == "product_detail" then
    match pickActive ps retryDraws with
    | some p => (some p, cats.find? (fun c => c.category_id == p.category_id))
    | none =>
      match ps[(finalDraw % ps.length)]? with
      | some p => (some p, cats.find? (fun c => c.category_id == p.category_id))
      | none => (none, none)
  else if page_type == "category_listing" then
    (none, cats[(catDraw % cats.length)]?)
  else (none, none)

/-! ### Cart state -/

/-- The quantity already in the cart for pid (0 when absent). -/
def cartQty (cart : List (Nat × CartEntry)) (pid : Nat) : Int :=
  match cart.find? (fun x => x.1 == pid) with
  | some x => x.2.quantity
  | none => 0

/-- pid in cart_contents. -/
def cartHas (cart : List (Nat × CartEntry)) (pid : Nat) : Bool :=
  cart.any (fun x => x.1 == pid)

/-- cart_contents[pid]["quantity"] += dq on the entry for pid. -/
def cartAddQty : List (Nat × CartEntry) → Nat → Int → List (Nat × CartEntry)
  | [], _, _ => []
  | x :: xs, pid, dq =>
    if x.1 == pid then (x.1, { x.2 with quantity := x.2.quantity + dq }) :: xs
    else x :: cartAddQty xs pid dq

/-- The add-to-cart block of the generation loop: ensure a zero-quantity
entry exists (snapshotting the product's current price), compute
stock_left from the ledger's current stock minus the quantity already in
the cart, cap the addition at min(3, stock_left), and when the cap is
positive add randint(1, cap). -/
def cartAddBlock (ledger : List Product) (cart : List (Nat × CartEntry))
    (pid : Nat) (price : ℚ) (r : Nat) : List (Nat × CartEntry) :=
  let cart1 := if cartHas cart pid then cart else cart ++ [(pid, ⟨0, price⟩)]
  let stock_left := getStockD ledger pid - cartQty cart1 pid
  let max_possible := min 3 stock_left
  if 0 < max_possible then cartAddQty cart1 pid (randint 1 max_possible r) else cart1

/-! ### Session synthesizer -/

/-- The page-view timeline sorted(set([0] + offsets + [duration])). -/
def timeSlots (duration : Nat) (offs : List Nat) : List Nat :=
  List.insertionSort (· ≤ ·) ((0 :: (offs ++ [duration])).dedup)

/-- Adjacent boundary pairs (time_slots[i], time_slots[i+1]). -/
def zipTail (l : List Nat) : List (Nat × Nat) := l.zip l.tail

/-- The random draws consumed by one page-view slot. -/
structure SlotChoice where
  posDraw : Nat
  transDraw : ℚ
  retryDraws : List Nat
  finalDraw : Nat
  catDraw : Nat
  addCoin : Bool
  qtyDraw : Nat

/-- The mutable state of one session under construction. -/
structure SessState where
  page_views : List PageView
  viewed : List Nat
  cart : List (Nat × CartEntry)

/-- viewed_products.add(pid) (insertion-ordered set model). -/
def addViewed (l : List Nat) (x : Nat) : List Nat :=
  if x ∈ l then l else l ++ [x]

/-- The product_detail branch of a slot: record the viewed product and,
with the 30% coin, run the add-to-cart block. -/
def cartViewedUpdate (ledger : List Product) (c : SlotChoice) (pt : String)
    (prod : Option Product) (st : SessState) : SessState :=
  match prod with
  | some p =>
    if pt == "product_detail" then
      { st with
        viewed := addViewed st.viewed p.product_id
        cart := if c.addCoin then cartAddBlock ledger st.cart p.product_id p.base_price c.qtyDraw
                else st.cart }
    else st
  | none => st

/-- One iteration of the page-view slot loop: decide the page type from
the position and history, resolve content, update viewed/cart state, and
append the page view with its slot timestamp and duration. -/
def sessStep (ledger : List Product) (cats : List Category) (c : SlotChoice)
    (i t1 t2 : Nat) (st : SessState) : SessState :=
  let pt := determine_page_type i st.page_views c.posDraw c.transDraw
  let pc := get_page_content pt ledger cats c.retryDraws c.finalDraw c.catDraw
  let st1 := cartViewedUpdate ledger c pt pc.1 st
  { st1 with
    page_views := st1.page_views ++
      [⟨t1, pt, pc.1.map (fun p => p.product_id), pc.2.map (fun cc => cc.category_id),
        (t2 : Int) - (t1 : Int)⟩] }

/-- The slot loop for i in range(len(time_slots) - 1). -/
def sessLoop (ledger : List Product) (cats : List Category) (cs : Nat → SlotChoice) :
    List (Nat × Nat) → Nat → SessState → SessState
  | [], _, st => st
  | (t1, t2) :: rest, i, st =>
    sessLoop ledger cats cs rest (i + 1) (sessStep ledger cats (cs i) i t1 t2 st)

/-- Build one full session: run the slot loop over the boundary pairs,
decide conversion (non-empty cart dict AND a checkout/confirmation page
view AND the 0.7 coin), and emit the record with the cart filtered to
positive quantities.  Also returns the converted flag and the unfiltered
cart dict, which the linked-transaction block consumes. -/
def generateSession (ledger : List Product) (cats : List Category)
    (duration : Nat) (offs : List Nat) (cs : Nat → SlotChoice) (convDraw : ℚ) :
    Session × Bool × List (Nat × CartEntry) :=
  let ts := timeSlots duration offs
  let st := sessLoop ledger cats cs (zipTail ts) 0 ⟨[], [], []⟩
  let converted :=
    (!st.cart.isEmpty &&
      st.page_views.any (fun pv => pv.page_type == "checkout" || pv.page_type == "confirmation"))
    && decide (convDraw < 7/10)
  ({ duration_seconds := duration
     viewed_products := st.viewed
     page_views := st.page_views
     cart_contents := st.cart.filter (fun x => decide (0 < x.2.quantity))
     conversion_status :=
       if converted then "converted" else if !st.cart.isEmpty then "abandoned" else "browsed" },
   converted, st.cart)

/-! ### Transaction synthesizer -/

/-- random.choice([0.05, 0.1, 0.15, 0.2]) as an index draw. -/
def discountChoice (i : Nat) : ℚ :=
  [(1 : ℚ)/20, 1/10, 3/20, 1/5].getD (i % 4) (1/20)

/-- Shared pricing of both transaction paths: subtotal as the exact sum
of item subtotals; with the 0.2 coin a discount of round2(subtotal × d)
for a uniformly chosen d among 5/10/15/20 percent; total rounded; the
stored subtotal rounded. -/
def mkTxn (items : List TxnItem) (discCoin : Bool) (dIdx : Nat) : Txn :=
  let subtotal := (items.map (fun it => it.subtotal)).sum
  let discount := if discCoin then round2 (subtotal * discountChoice dIdx) else 0
  let total := round2 (subtotal - discount)
  { items := items, subtotal := round2 subtotal, discount := discount, total := total }

/-- The linked-transaction reservation loop: walk the cart entries in
order, skip zero quantities, reserve each positive entry; on the first
failed reservation stop (break) with valid = False, keeping the partial
item list and the partially decremented ledger exactly as the source
does.  Returns (ledger, items, valid). -/
def linkedReserve (ledger : List Product) :
    List (Nat × CartEntry) → List Product × List TxnItem × Bool
  | [] => (ledger, [], true)
  | (pid, e) :: rest =>
    if 0 < e.quantity then
      let r := update_stock ledger pid e.quantity
      if r.1 then
        let rec' := linkedReserve r.2 rest
        (rec'.1, ⟨pid, e.quantity, e.price, round2 (e.quantity * e.price)⟩ :: rec'.2.1, rec'.2.2)
      else (ledger, [], false)
    else linkedReserve ledger rest

/-- random.sample(products, k): resolve the chosen indices against the
catalog list (the sampled objects alias the ledger's products). -/
def standalonePicks (ledger : List Product) (idxs : List Nat) : List Product :=
  idxs.filterMap (fun i => ledger[(i % ledger.length)]?)

/-- The standalone-transaction loop: for each sampled product, if it is
active draw a quantity in [1, 3] and attempt the reservation; a failed
reservation simply omits the item.  Returns (ledger, items). -/
def standaloneReserve (ledger : List Product) (picks : List Product)
    (qdraws : Nat → Nat) (k : Nat) : List Product × List TxnItem :=
  match picks with
  | [] => (ledger, [])
  | p :: rest =>
    if p.is_active then
      let qty := randint 1 3 (qdraws k)
      let r := update_stock ledger p.product_id qty
      if r.1 then
        let rec' := standaloneReserve r.2 rest qdraws (k + 1)
        (rec'.1, ⟨p.product_id, qty, p.base_price, round2 (qty * p.base_price)⟩ :: rec'.2)
      else standaloneReserve ledger rest qdraws (k + 1)
    else standaloneReserve ledger rest qdraws (k + 1)

/-! ### Generation driver -/

/-- The random draws consumed by one driver iteration. -/
structure IterChoice where
  duration : Nat
  offs : List Nat
  slots : Nat → SlotChoice
  convDraw : ℚ
  discCoinL : Bool
  discPickL : Nat
  standCoin : Bool
  standIdxs : List Nat
  standQtys : Nat → Nat
  discCoinS : Bool
  discPickS : Nat

/-- The two target counts of the configuration preset. -/
structure GenParams where
  numSessions : Nat
  numTransactions : Nat

/-- The driver's mutable state. -/
structure GenState where
  ledger : List Product
  sessions : List Session
  transactions : List Txn
  session_counter : Nat
  transaction_counter : Nat
  iteration : Nat

/-- The session half of one driver iteration: when under the session
target, synthesize and append one session; when it converted and the
transaction target is not met, run the linked-reservation loop and emit
the transaction only when valid with a non-empty item list (the ledger
keeps any reservations made either way). -/
def sessionPhase (P : GenParams) (cats : List Category) (c : IterChoice)
    (st : GenState) : GenState :=
  if st.session_counter < P.numSessions then
    let res := generateSession st.ledger cats c.duration c.offs c.slots c.convDraw
    let st1 := { st with
      sessions := st.sessions ++ [res.1]
      session_counter := st.session_counter + 1 }
    if res.2.1 = true ∧ st1.transaction_counter < P.numTransactions then
      let lr := linkedReserve st1.ledger res.2.2
      if lr.2.2 = true ∧ lr.2.1 ≠ [] then
        { st1 with
          ledger := lr.1
          transactions := st1.transactions ++ [mkTxn lr.2.1 c.discCoinL c.discPickL]
          transaction_counter := st1.transaction_counter + 1 }
      else { st1 with ledger := lr.1 }
    else st1
  else st

/-- The standalone half of one driver iteration: with the 0.2 coin and
under the transaction target, sample products, reserve independently,
and emit only when at least one item was reserved. -/
def standalonePhase (P : GenParams) (c : IterChoice) (st : GenState) : GenState :=
  if st.transaction_counter < P.numTransactions ∧ c.standCoin = true then
    let sr := standaloneReserve st.ledger (standalonePicks st.ledger c.standIdxs) c.standQtys 0
    if sr.2 ≠ [] then
      { st with
        ledger := sr.1
        transactions := st.transactions ++ [mkTxn sr.2 c.discCoinS c.discPickS]
        transaction_counter := st.transaction_counter + 1 }
    else { st with ledger := sr.1 }
  else st

/-- One full driver iteration (session block then standalone block). -/
def iterStep (P : GenParams) (cats : List Category) (c : IterChoice)
    (st : GenState) : GenState :=
  standalonePhase P c (sessionPhase P cats c st)

/-- The while condition of the generation loop. -/
def loopCond (P : GenParams) (maxIter : Nat) (st : GenState) : Bool :=
  (decide (st.session_counter < P.numSessions)
    || decide (st.transaction_counter < P.numTransactions))
  && decide (st.iteration < maxIter)

/-- The bounded generation loop: while under either target and under the
iteration ceiling, bump the iteration counter and run one iteration.
The fuel argument only serves termination; with fuel ≥ maxIter it is the
complete run. -/
def runGen (P : GenParams) (maxIter : Nat) (cats : List Category)
    (choices : Nat → IterChoice) : Nat → GenState → GenState
  | 0, st => st
  | fuel + 1, st =>
    if loopCond P maxIter st then
      runGen P maxIter cats choices fuel
        (iterStep P cats (choices st.iteration) { st with iteration := st.iteration + 1 })
    else st

/-- The driver's initial state over a frozen catalog. -/
def initState (L0 : List Product) : GenState :=
  { ledger := L0, sessions := [], transactions := [], session_counter := 0,
    transaction_counter := 0, iteration := 0 }

/-! ### Accounting helpers used to state the properties -/

/-- Total quantity of product pid across a list of transaction items. -/
def itemsQty (items : List TxnItem) (pid : Nat) : Int :=
  (items.map (fun it => if it.product_id = pid then it.quantity else 0)).sum

/-- Total quantity of product pid across the items of all transactions. -/
def soldQty (txns : List Txn) (pid : Nat) : Int :=
  (txns.map (fun t => itemsQty t.items pid)).sum

/-- The invariant linking a session's cart to the frozen ledger it was
built against: the cart's keys are distinct (it models a Python dict)
and every positive entry is backed by at least that much current
stock. -/
def CartOK (ledger : List Product) (cart : List (Nat × CartEntry)) : Prop :=
  (cart.map Prod.fst).Nodup ∧
    ∀ x ∈ cart, 0 < x.2.quantity → x.2.quantity ≤ getStockD ledger x.1

/-- A monetary value that is a whole number of cents. -/
def IsCent (q : ℚ) : Prop := ∃ n : ℤ, q = (n : ℚ) / 100

/-- An item whose stored subtotal is the rounded product of quantity and
unit price, as both transaction paths construct it. -/
def ItemOK (it : TxnItem) : Prop :=
  it.subtotal = round2 (it.quantity * it.unit_price)

/-- The pricing contract of an emitted transaction, stated in exact
rational arithmetic over its stored fields: the stored subtotal is the
rounded sum of the item subtotals, each item subtotal is the rounded
quantity-price product, the discount is zero or the rounded product of
the subtotal with one of the four discount rates, the total is the
rounded difference, and with no discount the total equals the subtotal
exactly. -/
def TxnOK (t : Txn) : Prop :=
  t.subtotal = round2 ((t.items.map (fun it => it.subtotal)).sum)
  ∧ (∀ it ∈ t.items, ItemOK it)
  ∧ (t.discount = 0 ∨ ∃ dv ∈ [(1 : ℚ)/20, 1/10, 3/20, 1/5],
      t.discount = round2 (t.subtotal * dv))
  ∧ t.total = round2 (t.subtotal - t.discount)
  ∧ (t.discount = 0 → t.total = t.subtotal)

/-- A well-formed emitted transaction: it satisfies the pricing contract
and carries at least one item. -/
def GoodTxn (t : Txn) : Prop := TxnOK t ∧ t.items ≠ []

/-! ### Inventory ledger lemmas -/

lemma lookupProduct_cons (p : Product) (ps : List Product) (pid : Nat) :
    lookupProduct (p :: ps) pid =
      if p.product_id == pid then some p else lookupProduct ps pid := by
  by_cases h : p.product_id == pid
  · simp [lookupProduct, List.find?_cons_of_pos, h]
  · simp only [lookupProduct] at *
    rw [List.find?_cons_of_neg _ (by simpa using h)]
    simp [h]

lemma getStockD_cons (p : Product) (ps : List Product) (pid : Nat) :
    getStockD (p :: ps) pid =
      if p.product_id == pid then p.current_stock else getStockD ps pid := by
  simp only [getStockD, lookupProduct_cons]
  by_cases h : p.product_id == pid <;> simp [h]

lemma getStockD_decStock_self (pid : Nat) (q : Int) :
    ∀ ps : List Product, (lookupProduct ps pid).isSome = true →
      getStockD (decStock ps pid q) pid = getStockD ps pid - q
  | [], h => by simp [lookupProduct] at h
  | p :: ps, h => by
    by_cases hp : p.product_id == pid
    · simp [decStock, hp, getStockD_cons]
    · have htail : (lookupProduct ps pid).isSome = true := by
        simpa [lookupProduct_cons, hp] using h
      simp [decStock, hp, getStockD_cons, getStockD_decStock_self pid q ps htail]

lemma getStockD_decStock_ne (pid pid2 : Nat) (q : Int) (hne : pid2 ≠ pid) :
    ∀ ps : List Product, getStockD (decStock ps pid q) pid2 = getStockD ps pid2
  | [] => rfl
  | p :: ps => by
    by_cases hp : p.product_id == pid
    · have hp2 : ¬(p.product_id == pid2) := by
        simp only [beq_iff_eq] at hp ⊢; omega
      simp [decStock, hp, getStockD_cons, hp2]
    · simp [decStock, hp, getStockD_cons, getStockD_decStock_ne pid pid2 q hne ps]

lemma update_stock_true_iff (ps : List Product) (pid : Nat) (q : Int) :
    (update_stock ps pid q).1 = true ↔
      ∃ p, lookupProduct ps pid = some p ∧ q ≤ p.current_stock := by
  unfold update_stock
  cases h : lookupProduct ps pid with
  | none => simp [h]
  | some p =>
    by_cases hq : q ≤ p.current_stock <;> simp [h, hq]

lemma update_stock_snd_true (ps : List Product) (pid : Nat) (q : Int)
    (h : (update_stock ps pid q).1 = true) :
    (update_stock ps pid q).2 = decStock ps pid q := by
  unfold update_stock at *
  cases hl : lookupProduct ps pid with
  | none => simp [hl] at h
  | some p =>
    by_cases hq : q ≤ p.current_stock
    · simp [hl, hq]
    · simp [hl, hq] at h

lemma update_stock_snd_false (ps : List Product) (pid : Nat) (q : Int)
    (h : (update_stock ps pid q).1 = false) :
    (update_stock ps pid q).2 = ps := by
  unfold update_stock at *
  cases hl : lookupProduct ps pid with
  | none => simp [hl]
  | some p =>
    by_cases hq : q ≤ p.current_stock
    · simp [hl, hq] at h
    · simp [hl, hq]

lemma update_stock_of_le (ps : List Product) (pid : Nat) (q : Int)
    (hq : 0 < q) (hle : q ≤ getStockD ps pid) :
    update_stock ps pid q = (true, decStock ps pid q) := by
  unfold update_stock
  cases hl : lookupProduct ps pid with
  | none => simp [getStockD, hl] at hle; omega
  | some p =>
    have : getStockD ps pid = p.current_stock := by simp [getStockD, hl]
    rw [this] at hle
    simp [hle]

/-- getStockD accounting of a successful reservation: the target
product's stock drops by the quantity, every other stock is unchanged. -/
lemma update_stock_true_stock (ps : List Product) (pid : Nat) (q : Int)
    (h : (update_stock ps pid q).1 = true) (pid2 : Nat) :
    getStockD (update_stock ps pid q).2 pid2 =
      getStockD ps pid2 - (if pid2 = pid then q else 0) := by
  rw [update_stock_snd_true ps pid q h]
  by_cases he : pid2 = pid
  · subst he
    obtain ⟨p, hp, -⟩ := (update_stock_true_iff ps pid2 q).mp h
    rw [getStockD_decStock_self pid2 q ps (by simp [hp])]
    simp
  · rw [getStockD_decStock_ne pid pid2 q he ps]
    simp [he]

/-- Membership in a decremented ledger: every product is either an
untouched original or the dict entry for pid with its stock reduced. -/
lemma mem_decStock (pid : Nat) (q : Int) :
    ∀ ps : List Product, ∀ p' ∈ decStock ps pid q,
      p' ∈ ps ∨ ∃ p, lookupProduct ps pid = some p ∧
        p' = { p with current_stock := p.current_stock - q }
  | [], p', h => by simp [decStock] at h
  | p :: ps, p', h => by
    by_cases hp : p.product_id == pid
    · simp only [decStock, if_pos hp, List.mem_cons] at h
      rcases h with h | h
      · exact Or.inr ⟨p, by simp [lookupProduct_cons, hp], h⟩
      · exact Or.inl (List.mem_cons_of_mem _ h)
    · simp only [decStock, if_neg hp, List.mem_cons] at h
      rcases h with h | h
      · exact Or.inl (by simp [h])
      · rcases mem_decStock pid q ps p' h with h2 | ⟨pf, hf, he⟩
        · exact Or.inl (List.mem_cons_of_mem _ h2)
        · exact Or.inr ⟨pf, by simp [lookupProduct_cons, hp, hf], he⟩

/-- A single reservation of quantity ≥ 1 keeps every stock
non-negative. -/
lemma update_stock_nonneg (ps : List Product) (pid : Nat) (q : Int)
    (_hq : 1 ≤ q) (h : ∀ p ∈ ps, 0 ≤ p.current_stock) :
    ∀ p' ∈ (update_stock ps pid q).2, 0 ≤ p'.current_stock := by
  intro p' hp'
  cases hres : (update_stock ps pid q).1 with
  | false => rw [update_stock_snd_false ps pid q hres] at hp'; exact h p' hp'
  | true =>
    rw [update_stock_snd_true ps pid q hres] at hp'
    rcases mem_decStock pid q ps p' hp' with hm | ⟨pf, hf, he⟩
    · exact h p' hm
    · obtain ⟨pg, hg, hle⟩ := (update_stock_true_iff ps pid q).mp hres
      rw [hf] at hg
      cases hg
      subst he
      simpa using sub_nonneg.mpr hle

lemma runOps_nonneg :
    ∀ ops : List LedgerOp, (∀ op ∈ ops, opQtyOK op = true) →
      ∀ ps : List Product, (∀ p ∈ ps, 0 ≤ p.current_stock) →
        ∀ p' ∈ runOps ps ops, 0 ≤ p'.current_stock
  | [], _, ps, h0, p', hp' => h0 p' (by simpa [runOps] using hp')
  | op :: ops, hops, ps, h0, p', hp' => by
    have hstep : ∀ p ∈ applyOp ps op, 0 ≤ p.current_stock := by
      cases op with
      | reserve pid qty =>
        have hq : 1 ≤ qty := by
          have := hops _ (List.mem_cons_self _ _)
          simpa [opQtyOK] using this
        exact update_stock_nonneg ps pid qty hq h0
      | peek pid => exact h0
    exact runOps_nonneg ops (fun o ho => hops o (List.mem_cons_of_mem _ ho))
      (applyOp ps op) hstep p' (by simpa [runOps] using hp')

/-- C3: the reserve contract of InventoryManager.update_stock.  The call
returns true iff the product exists in the ledger and its current stock
is at least the requested quantity; on success exactly that product's
stock drops by exactly the quantity and every other stock is unchanged;
on failure the whole ledger is returned unchanged.  The function is
total, so no call can raise. -/
theorem update_stock_spec (ps : List Product) (pid : Nat) (q : Int) :
    ((update_stock ps pid q).1 = true ↔
      ∃ p, lookupProduct ps pid = some p ∧ q ≤ p.current_stock)
    ∧ ((update_stock ps pid q).1 = true →
        getStockD (update_stock ps pid q).2 pid = getStockD ps pid - q
        ∧ ∀ pid2, pid2 ≠ pid →
            getStockD (update_stock ps pid q).2 pid2 = getStockD ps pid2)
    ∧ ((update_stock ps pid q).1 = false → (update_stock ps pid q).2 = ps) := by
  refine ⟨update_stock_true_iff ps pid q, fun h => ⟨?_, fun pid2 hne => ?_⟩,
    update_stock_snd_false ps pid q⟩
  · simpa using update_stock_true_stock ps pid q h pid
  · simpa [hne] using update_stock_true_stock ps pid q h pid2

/-- Witness for C3: on a ledger holding product 7 with stock 5, a
reservation of 2 succeeds and leaves stock 5 - 2. -/
theorem update_stock_spec_witness :
    getStockD (update_stock [⟨7, 0, 10, 5, true⟩] 7 2).2 7 =
      getStockD [(⟨7, 0, 10, 5, true⟩ : Product)] 7 - 2 :=
  ((update_stock_spec [⟨7, 0, 10, 5, true⟩] 7 2).2.1 (by decide)).1

/-- C2: the non-negativity invariant.  If every product starts with
non-negative stock and every reservation in an operation sequence
requests quantity ≥ 1, then after every prefix of the sequence (i.e. at
every point of the run, after every InventoryManager operation) every
product's stock is still non-negative. -/
theorem stock_nonneg_run (ps : List Product) (ops : List LedgerOp)
    (h0 : ∀ p ∈ ps, 0 ≤ p.current_stock)
    (hops : ∀ op ∈ ops, opQtyOK op = true) :
    ∀ n : Nat, ∀ p ∈ runOps ps (ops.take n), 0 ≤ p.current_stock := by
  intro n
  exact runOps_nonneg (ops.take n)
    (fun op ho => hops op (List.take_subset n ops ho)) ps h0

/-- Witness for C2: two successive reservations of 2 from stock 5 leave
stock 1, which is non-negative. -/
theorem stock_nonneg_run_witness :
    0 ≤ (Product.mk 7 0 10 1 true).current_stock :=
  stock_nonneg_run [⟨7, 0, 10, 5, true⟩]
    [.reserve 7 2, .reserve 7 2] (by decide) (by decide) 2
    ⟨7, 0, 10, 1, true⟩ (by decide)

/-! ### Cart lemmas -/

lemma randint_bounds (m : Int) (hm : 0 < m) (r : Nat) :
    1 ≤ randint 1 m r ∧ randint 1 m r ≤ m := by
  unfold randint
  have h1 : (0 : Int) ≤ (r : Int) % (m - 1 + 1) :=
    Int.emod_nonneg (r : Int) (by omega)
  have h2 : (r : Int) % (m - 1 + 1) < m - 1 + 1 :=
    Int.emod_lt_of_pos (r : Int) (by omega)
  omega

lemma cartQty_cons (x : Nat × CartEntry) (xs : List (Nat × CartEntry)) (pid : Nat) :
    cartQty (x :: xs) pid =
      if x.1 == pid then x.2.quantity else cartQty xs pid := by
  by_cases h : x.1 == pid
  · simp [cartQty, List.find?_cons_of_pos, h]
  · simp only [cartQty] at *
    rw [List.find?_cons_of_neg _ (by simpa using h)]
    simp [h]

lemma cartQty_append_entry (pid : Nat) (e : CartEntry) :
    ∀ cart : List (Nat × CartEntry),
      cartQty (cart ++ [(pid, e)]) pid =
        if cartHas cart pid then cartQty cart pid else e.quantity
  | [] => by simp [cartQty, cartHas]
  | x :: xs => by
    by_cases h : x.1 == pid
    · simp [cartQty_cons, cartHas, h]
    · have ih := cartQty_append_entry pid e xs
      simp only [List.cons_append, cartQty_cons, h, if_false, cartHas, List.any_cons] at *
      simpa [h] using ih

lemma cartHas_append_entry (cart : List (Nat × CartEntry)) (pid : Nat) (e : CartEntry) :
    cartHas (cart ++ [(pid, e)]) pid = true := by
  simp [cartHas, List.any_append]

lemma cartQty_cartAddQty_self (pid : Nat) (d : Int) :
    ∀ cart : List (Nat × CartEntry), cartHas cart pid = true →
      cartQty (cartAddQty cart pid d) pid = cartQty cart pid + d
  | [], h => by simp [cartHas] at h
  | x :: xs, h => by
    by_cases hx : x.1 == pid
    · simp [cartAddQty, hx, cartQty_cons]
    · have htail : cartHas xs pid = true := by
        simpa [cartHas, List.any_cons, hx] using h
      simp [cartAddQty, hx, cartQty_cons, cartQty_cartAddQty_self pid d xs htail]

lemma cartQty_eq_zero_of_not_has (cart : List (Nat × CartEntry)) (pid : Nat)
    (h : ¬cartHas cart pid = true) : cartQty cart pid = 0 := by
  have hfind : cart.find? (fun x => x.1 == pid) = none := by
    rw [List.find?_eq_none]
    intro x hx hb
    apply h
    simp only [cartHas, List.any_eq_true]
    exact ⟨x, hx, hb⟩
  simp [cartQty, hfind]

/-- The quantity already in the cart is unchanged by ensuring a
zero-quantity entry exists. -/
lemma cartQty_ensure (cart : List (Nat × CartEntry)) (pid : Nat) (price : ℚ) :
    cartQty (if cartHas cart pid then cart else cart ++ [(pid, ⟨0, price⟩)]) pid =
      cartQty cart pid := by
  by_cases h : cartHas cart pid
  · simp [h]
  · simp only [h, if_false, Bool.false_eq_true]
    rw [cartQty_append_entry]
    simp [h, cartQty_eq_zero_of_not_has cart pid h]

lemma cartHas_ensure (cart : List (Nat × CartEntry)) (pid : Nat) (price : ℚ) :
    cartHas (if cartHas cart pid then cart else cart ++ [(pid, ⟨0, price⟩)]) pid = true := by
  by_cases h : cartHas cart pid
  · simp [h]
  · simp only [h, if_false, Bool.false_eq_true]
    exact cartHas_append_entry cart pid _

/-- C6: the cart-add cap.  Writing stock_left for the ledger's current
stock of the product minus the quantity already in the session's cart
for it: when min(3, stock_left) is positive the quantity added by the
add-to-cart block lies between 1 and min(3, stock_left) (in particular
it never exceeds stock_left); otherwise nothing is added. -/
theorem cart_add_cap (ledger : List Product) (cart : List (Nat × CartEntry))
    (pid : Nat) (price : ℚ) (r : Nat) :
    (0 < min 3 (getStockD ledger pid - cartQty cart pid) →
      1 ≤ cartQty (cartAddBlock ledger cart pid price r) pid - cartQty cart pid
      ∧ cartQty (cartAddBlock ledger cart pid price r) pid - cartQty cart pid ≤
          min 3 (getStockD ledger pid - cartQty cart pid)
      ∧ cartQty (cartAddBlock ledger cart pid price r) pid - cartQty cart pid ≤
          getStockD ledger pid - cartQty cart pid)
    ∧ (min 3 (getStockD ledger pid - cartQty cart pid) ≤ 0 →
        cartQty (cartAddBlock ledger cart pid price r) pid = cartQty cart pid) := by
  simp only [cartAddBlock]
  rw [cartQty_ensure cart pid price]
  constructor
  · intro hpos
    rw [if_pos hpos,
      cartQty_cartAddQty_self _ _ _ (cartHas_ensure cart pid price),
      cartQty_ensure cart pid price]
    have hb := randint_bounds _ hpos r
    have hmin : min 3 (getStockD ledger pid - cartQty cart pid) ≤
        getStockD ledger pid - cartQty cart pid := min_le_right _ _
    omega
  · intro hle
    rw [if_neg (by omega), cartQty_ensure cart pid price]

/-! ### Timeline lemmas -/

lemma timeSlots_sorted (d : Nat) (offs : List Nat) :
    List.Sorted (· ≤ ·) (timeSlots d offs) :=
  List.sorted_insertionSort _ _

lemma timeSlots_nodup (d : Nat) (offs : List Nat) : (timeSlots d offs).Nodup :=
  ((List.perm_insertionSort _ _).nodup_iff).mpr (List.nodup_dedup _)

lemma timeSlots_sorted_lt (d : Nat) (offs : List Nat) :
    List.Sorted (· < ·) (timeSlots d offs) :=
  (timeSlots_sorted d offs).lt_of_le (timeSlots_nodup d offs)

lemma mem_timeSlots {x d : Nat} {offs : List Nat} :
    x ∈ timeSlots d offs ↔ x = 0 ∨ x ∈ offs ∨ x = d := by
  unfold timeSlots
  rw [(List.perm_insertionSort _ _).mem_iff, List.mem_dedup]
  simp

lemma timeSlots_length_le (d : Nat) (offs : List Nat) :
    (timeSlots d offs).length ≤ offs.length + 2 := by
  unfold timeSlots
  rw [(List.perm_insertionSort _ _).length_eq]
  have := (List.dedup_sublist (0 :: (offs ++ [d]))).length_le
  simpa using this

lemma zipTail_cons_cons (a b : Nat) (l : List Nat) :
    zipTail (a :: b :: l) = (a, b) :: zipTail (b :: l) := rfl

lemma zipTail_length : ∀ l : List Nat, (zipTail l).length = l.length - 1 := by
  intro l
  simp [zipTail, List.length_zip, List.length_tail]

lemma zipTail_map_fst : ∀ l : List Nat, (zipTail l).map Prod.fst = l.dropLast
  | [] => rfl
  | [_] => rfl
  | a :: b :: l => by
    rw [zipTail_cons_cons, List.map_cons, zipTail_map_fst (b :: l)]
    rfl

lemma zipTail_sum_gaps : ∀ (l : List Nat) (a : Nat),
    ((zipTail (a :: l)).map (fun q => (q.2 : Int) - q.1)).sum = (l.getLastD a : Int) - a
  | [], a => by simp [zipTail]
  | b :: l, a => by
    rw [zipTail_cons_cons, List.map_cons, List.sum_cons, zipTail_sum_gaps l b,
      List.getLastD_cons]
    push_cast
    ring

lemma zipTail_lt : ∀ l : List Nat, List.Sorted (· < ·) l → ∀ q ∈ zipTail l, q.1 < q.2
  | [], _, q, h => by simp [zipTail] at h
  | [_], _, q, h => by simp [zipTail] at h
  | a :: b :: l, hs, q, h => by
    rw [zipTail_cons_cons, List.mem_cons] at h
    rcases h with h | h
    · subst h
      exact (List.sorted_cons.mp hs).1 b (by simp)
    · exact zipTail_lt (b :: l) (List.sorted_cons.mp hs).2 q h

lemma getLastD_mem : ∀ (l : List Nat) (a : Nat), l.getLastD a ∈ a :: l
  | [], a => by simp
  | b :: l, a => by
    rw [List.getLastD_cons]
    have := getLastD_mem l b
    simp only [List.mem_cons] at this ⊢
    tauto

lemma sorted_le_getLastD : ∀ (l : List Nat) (a x : Nat),
    List.Sorted (· ≤ ·) (a :: l) → x ∈ a :: l → x ≤ l.getLastD a
  | [], a, x, _, hx => by
    simp only [List.mem_singleton] at hx
    simp [hx]
  | b :: l, a, x, hs, hx => by
    rw [List.getLastD_cons]
    rcases List.mem_cons.mp hx with h | h
    · subst h
      have hab : x ≤ b := (List.sorted_cons.mp hs).1 b (by simp)
      have hbl := sorted_le_getLastD l b b (List.sorted_cons.mp hs).2 (by simp)
      omega
    · exact sorted_le_getLastD l b x (List.sorted_cons.mp hs).2 h

lemma timeSlots_ne_nil (d : Nat) (offs : List Nat) : timeSlots d offs ≠ [] := by
  intro h
  have h0 : 0 ∈ timeSlots d offs := mem_timeSlots.mpr (Or.inl rfl)
  rw [h] at h0
  simp at h0

lemma timeSlots_head_zero (d : Nat) (offs : List Nat) {a : Nat} {t : List Nat}
    (h : timeSlots d offs = a :: t) : a = 0 := by
  have h0 : 0 ∈ timeSlots d offs := mem_timeSlots.mpr (Or.inl rfl)
  rw [h, List.mem_cons] at h0
  rcases h0 with h2 | h2
  · omega
  · have hs := timeSlots_sorted d offs
    rw [h] at hs
    have := (List.sorted_cons.mp hs).1 0 h2
    omega

lemma timeSlots_getLastD (d : Nat) (offs : List Nat)
    (hoffs : ∀ o ∈ offs, o ≤ d) {a : Nat} {t : List Nat}
    (h : timeSlots d offs = a :: t) : t.getLastD a = d := by
  have hs := timeSlots_sorted d offs
  rw [h] at hs
  have hd : d ∈ a :: t := by
    rw [← h]; exact mem_timeSlots.mpr (Or.inr (Or.inr rfl))
  have h1 : d ≤ t.getLastD a := sorted_le_getLastD t a d hs hd
  have h2 : t.getLastD a ≤ d := by
    have hm : t.getLastD a ∈ timeSlots d offs := by
      rw [h]; exact getLastD_mem t a
    rcases mem_timeSlots.mp hm with h3 | h3 | h3
    · omega
    · exact hoffs _ h3
    · omega
  omega

/-! ### Session loop projection lemmas -/

lemma cartViewedUpdate_page_views (L : List Product) (c : SlotChoice) (pt : String)
    (prod : Option Product) (st : SessState) :
    (cartViewedUpdate L c pt prod st).page_views = st.page_views := by
  cases prod with
  | none => rfl
  | some p =>
    simp only [cartViewedUpdate]
    split <;> rfl

/-- One slot appends exactly one page view with the slot's timestamp and
duration. -/
lemma sessStep_page_views_shape (L : List Product) (cats : List Category)
    (c : SlotChoice) (i t1 t2 : Nat) (st : SessState) :
    ∃ pt prodid catid,
      (sessStep L cats c i t1 t2 st).page_views =
        st.page_views ++ [⟨t1, pt, prodid, catid, (t2 : Int) - (t1 : Int)⟩] := by
  simp only [sessStep]
  rw [cartViewedUpdate_page_views]
  exact ⟨_, _, _, rfl⟩

lemma sessLoop_timestamps (L : List Product) (cats : List Category)
    (cs : Nat → SlotChoice) : ∀ (pairs : List (Nat × Nat)) (i : Nat) (st : SessState),
    (sessLoop L cats cs pairs i st).page_views.map (fun pv => pv.timestamp) =
      st.page_views.map (fun pv => pv.timestamp) ++ pairs.map Prod.fst
  | [], _, st => by simp [sessLoop]
  | (t1, t2) :: rest, i, st => by
    simp only [sessLoop]
    rw [sessLoop_timestamps L cats cs rest (i + 1) _]
    obtain ⟨pt, pi, ci, hshape⟩ := sessStep_page_views_shape L cats (cs i) i t1 t2 st
    rw [hshape]
    simp

lemma sessLoop_durations (L : List Product) (cats : List Category)
    (cs : Nat → SlotChoice) : ∀ (pairs : List (Nat × Nat)) (i : Nat) (st : SessState),
    (sessLoop L cats cs pairs i st).page_views.map (fun pv => pv.view_duration) =
      st.page_views.map (fun pv => pv.view_duration) ++
        pairs.map (fun q => (q.2 : Int) - q.1)
  | [], _, st => by simp [sessLoop]
  | (t1, t2) :: rest, i, st => by
    simp only [sessLoop]
    rw [sessLoop_durations L cats cs rest (i + 1) _]
    obtain ⟨pt, pi, ci, hshape⟩ := sessStep_page_views_shape L cats (cs i) i t1 t2 st
    rw [hshape]
    simp

lemma sessLoop_num_views (L : List Product) (cats : List Category)
    (cs : Nat → SlotChoice) (pairs : List (Nat × Nat)) (i : Nat) (st : SessState) :
    (sessLoop L cats cs pairs i st).page_views.length =
      st.page_views.length + pairs.length := by
  have h := sessLoop_timestamps L cats cs pairs i st
  have := congrArg List.length h
  simpa using this

/-- Witness for C6: product 5 with stock 2 and an empty cart; a draw
asking for more is capped: the added quantity is 2 = min(3, 2). -/
theorem cart_add_cap_witness :
    1 ≤ cartQty (cartAddBlock [⟨5, 0, 10, 2, true⟩] [] 5 10 7) 5 - cartQty [] 5
    ∧ cartQty (cartAddBlock [⟨5, 0, 10, 2, true⟩] [] 5 10 7) 5 - cartQty [] 5 ≤
        min 3 (getStockD [⟨5, 0, 10, 2, true⟩] 5 - cartQty [] 5)
    ∧ cartQty (cartAddBlock [⟨5, 0, 10, 2, true⟩] [] 5 10 7) 5 - cartQty [] 5 ≤
        getStockD [⟨5, 0, 10, 2, true⟩] 5 - cartQty [] 5 :=
  (cart_add_cap [⟨5, 0, 10, 2, true⟩] [] 5 10 7).1 (by decide)

/-! ### C5 and C10: session timeline properties -/

lemma generateSession_page_views (ledger : List Product) (cats : List Category)
    (d : Nat) (offs : List Nat) (cs : Nat → SlotChoice) (convDraw : ℚ) :
    (generateSession ledger cats d offs cs convDraw).1.page_views =
      (sessLoop ledger cats cs (zipTail (timeSlots d offs)) 0 ⟨[], [], []⟩).page_views := rfl

/-- C5: session monotonicity.  In every emitted session the page-view
timestamps are non-decreasing in list order, every view_duration is
non-negative, and the view durations sum to the session's
duration_seconds.  The hypothesis is what the generator guarantees for
its offset draws: each one lies within the session duration. -/
theorem session_monotonicity (ledger : List Product) (cats : List Category)
    (d : Nat) (offs : List Nat) (cs : Nat → SlotChoice) (convDraw : ℚ)
    (hoffs : ∀ o ∈ offs, o ≤ d) :
    List.Pairwise (· ≤ ·)
      ((generateSession ledger cats d offs cs convDraw).1.page_views.map
        (fun pv => pv.timestamp))
    ∧ (∀ pv ∈ (generateSession ledger cats d offs cs convDraw).1.page_views,
        0 ≤ pv.view_duration)
    ∧ ((generateSession ledger cats d offs cs convDraw).1.page_views.map
        (fun pv => pv.view_duration)).sum = (d : Int) := by
  have hmapT := sessLoop_timestamps ledger cats cs (zipTail (timeSlots d offs)) 0 ⟨[], [], []⟩
  have hmapD := sessLoop_durations ledger cats cs (zipTail (timeSlots d offs)) 0 ⟨[], [], []⟩
  simp only [List.map_nil, List.nil_append] at hmapT hmapD
  refine ⟨?_, ?_, ?_⟩
  · rw [generateSession_page_views, hmapT, zipTail_map_fst]
    exact List.Pairwise.sublist (List.dropLast_sublist _) (timeSlots_sorted d offs)
  · intro pv hmem
    have hin : pv.view_duration ∈
        ((generateSession ledger cats d offs cs convDraw).1.page_views.map
          (fun pv => pv.view_duration)) := List.mem_map_of_mem _ hmem
    rw [generateSession_page_views, hmapD] at hin
    obtain ⟨q, hq, he⟩ := List.mem_map.mp hin
    have hlt := zipTail_lt _ (timeSlots_sorted_lt d offs) q hq
    omega
  · rw [generateSession_page_views, hmapD]
    obtain ⟨a, t, hat⟩ := List.exists_cons_of_ne_nil (timeSlots_ne_nil d offs)
    rw [hat, zipTail_sum_gaps t a, timeSlots_getLastD d offs hoffs hat,
      timeSlots_head_zero d offs hat]
    simp

/-- Witness for C5: a 30-second session with offsets 10 and 20 has page
views whose durations sum to 30. -/
theorem session_monotonicity_witness :
    ((generateSession [] [] 30 [10, 20] (fun _ => ⟨0, 0, [], 0, 0, false, 0⟩)
      0).1.page_views.map (fun pv => pv.view_duration)).sum = (30 : Int) :=
  (session_monotonicity [] [] 30 [10, 20] (fun _ => ⟨0, 0, [], 0, 0, false, 0⟩)
    0 (by decide)).2.2

lemma three_le_length_of_nodup {l : List Nat} {a b c : Nat} (hn : l.Nodup)
    (ha : a ∈ l) (hb : b ∈ l) (hc : c ∈ l)
    (hab : a ≠ b) (hac : a ≠ c) (hbc : b ≠ c) : 3 ≤ l.length := by
  have hsub : ({a, b, c} : Finset Nat) ⊆ l.toFinset := by
    intro x hx
    rw [List.mem_toFinset]
    rcases Finset.mem_insert.mp hx with h | hx2
    · exact h ▸ ha
    rcases Finset.mem_insert.mp hx2 with h | h
    · exact h ▸ hb
    · exact (Finset.mem_singleton.mp h) ▸ hc
  have h3 : ({a, b, c} : Finset Nat).card = 3 := by
    rw [Finset.card_insert_of_not_mem (by simp [hab, hac]),
      Finset.card_insert_of_not_mem (by simp [hbc]), Finset.card_singleton]
  calc 3 = ({a, b, c} : Finset Nat).card := h3.symm
    _ ≤ l.toFinset.card := Finset.card_le_card hsub
    _ = l.length := List.toFinset_card_of_nodup hn

/-- C10: page-view count bounds.  Under the generator's draw ranges (a
duration in [30, 3600], between 4 and 12 offsets, each in
[1, max 2 (d-1)]), every emitted session has between 2 and 13 page
views, and every view_duration is strictly positive. -/
theorem page_view_count_bounds (ledger : List Product) (cats : List Category)
    (d : Nat) (offs : List Nat) (cs : Nat → SlotChoice) (convDraw : ℚ)
    (hd1 : 30 ≤ d) (hd2 : d ≤ 3600)
    (hn1 : 4 ≤ offs.length) (hn2 : offs.length ≤ 12)
    (hoffs : ∀ o ∈ offs, 1 ≤ o ∧ o ≤ max 2 (d - 1)) :
    2 ≤ (generateSession ledger cats d offs cs convDraw).1.page_views.length
    ∧ (generateSession ledger cats d offs cs convDraw).1.page_views.length ≤ 13
    ∧ ∀ pv ∈ (generateSession ledger cats d offs cs convDraw).1.page_views,
        0 < pv.view_duration := by
  have hlen : (generateSession ledger cats d offs cs convDraw).1.page_views.length =
      (timeSlots d offs).length - 1 := by
    rw [generateSession_page_views,
      sessLoop_num_views ledger cats cs (zipTail (timeSlots d offs)) 0 ⟨[], [], []⟩]
    simp [zipTail_length]
  have hmax : max 2 (d - 1) = d - 1 := max_eq_right (by omega)
  obtain ⟨o0, ho0⟩ := List.exists_mem_of_ne_nil offs (by
    intro h
    rw [h] at hn1
    simp at hn1)
  have ho0b := hoffs o0 ho0
  rw [hmax] at ho0b
  have hm0 : (0 : Nat) ∈ timeSlots d offs := mem_timeSlots.mpr (Or.inl rfl)
  have hmo : o0 ∈ timeSlots d offs := mem_timeSlots.mpr (Or.inr (Or.inl ho0))
  have hmd : d ∈ timeSlots d offs := mem_timeSlots.mpr (Or.inr (Or.inr rfl))
  have h3 : 3 ≤ (timeSlots d offs).length :=
    three_le_length_of_nodup (timeSlots_nodup d offs) hm0 hmo hmd
      (by omega) (by omega) (by omega)
  have hub := timeSlots_length_le d offs
  refine ⟨by omega, by omega, ?_⟩
  intro pv hmem
  have hmapD := sessLoop_durations ledger cats cs (zipTail (timeSlots d offs)) 0 ⟨[], [], []⟩
  simp only [List.map_nil, List.nil_append] at hmapD
  have hin : pv.view_duration ∈
      ((generateSession ledger cats d offs cs convDraw).1.page_views.map
        (fun pv => pv.view_duration)) := List.mem_map_of_mem _ hmem
  rw [generateSession_page_views, hmapD] at hin
  obtain ⟨q, hq, he⟩ := List.mem_map.mp hin
  have hlt := zipTail_lt _ (timeSlots_sorted_lt d offs) q hq
  omega

/-- Witness for C10: a 30-second session with four distinct offsets has
at least 2 page views. -/
theorem page_view_count_bounds_witness :
    2 ≤ (generateSession [] [] 30 [5, 10, 15, 20]
      (fun _ => ⟨0, 0, [], 0, 0, false, 0⟩) 0).1.page_views.length :=
  (page_view_count_bounds [] [] 30 [5, 10, 15, 20]
    (fun _ => ⟨0, 0, [], 0, 0, false, 0⟩) 0 (by decide) (by decide)
    (by decide) (by decide) (by decide)).1


/-! ### C9: the state-machine default for unknown prior pages -/

/-- Counterexample for C9: with position 1 and a prior page type outside
the seven known states, determine_page_type returns the literal page
"home", which is not one of the three outcomes of home's transition
distribution, so the result is not drawn from home's distribution. -/
theorem page_transition_default_counterexample :
    determine_page_type 1 [⟨0, "landing", none, none, 0⟩] 0 (9/10) = "home"
    ∧ "home" ∉ (["category_listing", "search", "product_detail"] : List String) := by
  constructor
  · decide
  · decide

/-- C9 (amended): for every position > 0, when the last history entry's
page type lies outside the seven known states the transition function
returns the fixed page "home" (not a draw from home's distribution);
it is an empty history that falls back to home's distribution. -/
theorem page_transition_default (position : Nat) (pvs : List PageView)
    (u : Nat) (r : ℚ) (pv : PageView)
    (hpos : position ≠ 0) (hlast : pvs.getLast? = some pv)
    (hunk : pv.page_type ∉ (["home", "search", "category_listing",
      "product_detail", "cart", "checkout", "confirmation"] : List String)) :
    determine_page_type position pvs u r = "home"
    ∧ ∀ pos2 u2, pos2 ≠ 0 →
        determine_page_type pos2 [] u2 r = weightedChoice homeTable r := by
  have hp : (position == 0) = false := by simpa using hpos
  constructor
  · simp only [List.mem_cons, List.mem_singleton, not_or] at hunk
    obtain ⟨h1, h2, h3, h4, h5, h6, h7⟩ := hunk
    simp [determine_page_type, hp, hlast, h1, h2, h3, h4, h5, h6, h7]
  · intro pos2 u2 hpos2
    have hp2 : (pos2 == 0) = false := by simpa using hpos2
    simp [determine_page_type, hp2]

/-- Witness for C9 (amended): the unknown prior page "landing" at
position 2 yields the fixed page "home". -/
theorem page_transition_default_witness :
    determine_page_type 2 [⟨0, "landing", none, none, 0⟩] 3 (1/4) = "home" :=
  (page_transition_default 2 [⟨0, "landing", none, none, 0⟩] 3 (1/4)
    ⟨0, "landing", none, none, 0⟩ (by decide) rfl (by decide)).1

/-! ### C4: the conversion precondition -/

lemma generateSession_converted_eq (L : List Product) (cats : List Category)
    (d : Nat) (offs : List Nat) (cs : Nat → SlotChoice) (r : ℚ) :
    (generateSession L cats d offs cs r).2.1 =
      ((!(sessLoop L cats cs (zipTail (timeSlots d offs)) 0 ⟨[], [], []⟩).cart.isEmpty &&
        (sessLoop L cats cs (zipTail (timeSlots d offs)) 0 ⟨[], [], []⟩).page_views.any
          (fun pv => pv.page_type == "checkout" || pv.page_type == "confirmation"))
        && decide (r < 7/10)) := rfl

lemma generateSession_cart_eq (L : List Product) (cats : List Category)
    (d : Nat) (offs : List Nat) (cs : Nat → SlotChoice) (r : ℚ) :
    (generateSession L cats d offs cs r).2.2 =
      (sessLoop L cats cs (zipTail (timeSlots d offs)) 0 ⟨[], [], []⟩).cart := rfl

lemma generateSession_status_eq (L : List Product) (cats : List Category)
    (d : Nat) (offs : List Nat) (cs : Nat → SlotChoice) (r : ℚ) :
    (generateSession L cats d offs cs r).1.conversion_status =
      (if (generateSession L cats d offs cs r).2.1 = true then "converted"
       else if !(generateSession L cats d offs cs r).2.2.isEmpty then "abandoned"
       else "browsed") := rfl

/-- C4 (amended): every session emitted with conversion_status
"converted" has at least one page view of type checkout or confirmation,
and its pre-filter cart dict is non-empty; the record's cart_contents
(filtered to positive quantities) can still be empty, because the
conversion test reads the unfiltered dict, whose entries may all have
quantity zero. -/
theorem conversion_checkout_precondition (ledger : List Product)
    (cats : List Category) (d : Nat) (offs : List Nat) (cs : Nat → SlotChoice)
    (convDraw : ℚ)
    (hconv : (generateSession ledger cats d offs cs convDraw).1.conversion_status =
      "converted") :
    (generateSession ledger cats d offs cs convDraw).2.2 ≠ []
    ∧ ∃ pv ∈ (generateSession ledger cats d offs cs convDraw).1.page_views,
        pv.page_type = "checkout" ∨ pv.page_type = "confirmation" := by
  rw [generateSession_status_eq] at hconv
  by_cases hb : (generateSession ledger cats d offs cs convDraw).2.1 = true
  case neg =>
    rw [if_neg hb] at hconv
    exfalso
    by_cases h2 : (!(generateSession ledger cats d offs cs convDraw).2.2.isEmpty) = true
    · rw [if_pos h2] at hconv
      exact absurd hconv (by decide)
    · rw [if_neg h2] at hconv
      exact absurd hconv (by decide)
  case pos =>
    rw [generateSession_converted_eq] at hb
    simp only [Bool.and_eq_true, List.any_eq_true] at hb
    obtain ⟨⟨hcart, pv, hpv, hdisj⟩, -⟩ := hb
    refine ⟨?_, pv, ?_, ?_⟩
    · rw [generateSession_cart_eq]
      intro hnil
      rw [hnil] at hcart
      simp at hcart
    · rw [generateSession_page_views]
      exact hpv
    · simpa using hdisj

/-- Counterexample for C4: a complete five-iteration run of the
generation loop in which four standalone purchases drain product 0 from
stock 10 to stock 0, and the fifth session then browses
home → product_detail → cart → checkout, fires the add-to-cart coin on
the now out-of-stock product (creating a quantity-zero cart entry, so
nothing is added), and converts: the emitted session record has
conversion_status "converted" together with empty cart_contents,
refuting the claim that every converted record has a non-empty
cart_contents. -/
theorem conversion_cart_counterexample :
    ((runGen ⟨100, 100⟩ 100 [⟨0⟩]
        (fun i =>
          if i = 4 then
            ⟨30, [5, 10, 15, 15],
              (fun j =>
                if j = 1 then ⟨0, 9/10, [0], 0, 0, true, 0⟩
                else if j = 2 then ⟨0, 2/5, [], 0, 0, false, 0⟩
                else ⟨0, 0, [], 0, 0, false, 0⟩),
              0, false, 0, false, [], (fun _ => 0), false, 0⟩
          else
            ⟨30, [1, 1, 1, 1], (fun _ => ⟨0, 0, [], 0, 0, false, 0⟩), 1,
              false, 0, true, [0], (fun _ => if i = 3 then 0 else 2), false, 0⟩)
        5 (initState [⟨0, 0, 10, 10, true⟩])).sessions.map
      (fun s => (s.conversion_status, s.cart_contents))).getLast? =
    some ("converted", []) := by with_unfolding_all decide

/-- Witness for C4 (amended): the converting session of the
counterexample run, taken directly at the session synthesizer over the
drained one-product catalog: its unfiltered cart dict is non-empty. -/
theorem conversion_checkout_precondition_witness :
    (generateSession [⟨0, 0, 10, 0, true⟩] [⟨0⟩] 30 [5, 10, 15, 15]
      (fun j =>
        if j = 1 then ⟨0, 9/10, [0], 0, 0, true, 0⟩
        else if j = 2 then ⟨0, 2/5, [], 0, 0, false, 0⟩
        else ⟨0, 0, [], 0, 0, false, 0⟩) 0).2.2 ≠ [] :=
  (conversion_checkout_precondition [⟨0, 0, 10, 0, true⟩] [⟨0⟩] 30
    [5, 10, 15, 15]
    (fun j =>
      if j = 1 then ⟨0, 9/10, [0], 0, 0, true, 0⟩
      else if j = 2 then ⟨0, 2/5, [], 0, 0, false, 0⟩
      else ⟨0, 0, [], 0, 0, false, 0⟩) 0 (by with_unfolding_all decide)).1

/-! ### Reservation accounting lemmas -/

lemma itemsQty_nil (pid : Nat) : itemsQty [] pid = 0 := rfl

lemma itemsQty_cons (it : TxnItem) (items : List TxnItem) (pid : Nat) :
    itemsQty (it :: items) pid =
      (if it.product_id = pid then it.quantity else 0) + itemsQty items pid := by
  simp [itemsQty]

lemma soldQty_append_singleton (txns : List Txn) (t : Txn) (pid : Nat) :
    soldQty (txns ++ [t]) pid = soldQty txns pid + itemsQty t.items pid := by
  simp [soldQty]

lemma lookup_isSome_of_stock_pos {ps : List Product} {pid : Nat}
    (h : 0 < getStockD ps pid) : (lookupProduct ps pid).isSome = true := by
  unfold getStockD at h
  cases hl : lookupProduct ps pid with
  | none => rw [hl] at h; simp at h
  | some p => simp

/-- The linked-transaction reservation loop, run on a cart satisfying
the cart invariant: every reservation succeeds (valid stays true), the
items record exactly the reserved quantities (per-product stock
accounting), and every item's subtotal is the rounded product. -/
lemma linkedReserve_ok : ∀ (cart : List (Nat × CartEntry)) (ledger : List Product),
    (∀ x ∈ cart, 0 < x.2.quantity → x.2.quantity ≤ getStockD ledger x.1) →
    (cart.map Prod.fst).Nodup →
    (linkedReserve ledger cart).2.2 = true
    ∧ (∀ pid, getStockD (linkedReserve ledger cart).1 pid
        + itemsQty (linkedReserve ledger cart).2.1 pid = getStockD ledger pid)
    ∧ (∀ it ∈ (linkedReserve ledger cart).2.1, ItemOK it)
  | [], ledger, _, _ => by
    refine ⟨rfl, fun pid => ?_, by simp [linkedReserve]⟩
    simp [linkedReserve, itemsQty_nil]
  | (pid0, e) :: rest, ledger, hstock, hnodup => by
    have hnodup' : (rest.map Prod.fst).Nodup := (List.nodup_cons.mp hnodup).2
    by_cases hq : 0 < e.quantity
    · have hle : e.quantity ≤ getStockD ledger pid0 :=
        hstock (pid0, e) (List.mem_cons_self _ _) hq
      have hupd := update_stock_of_le ledger pid0 e.quantity hq hle
      have hsome : (lookupProduct ledger pid0).isSome = true :=
        lookup_isSome_of_stock_pos (lt_of_lt_of_le hq hle)
      have hstock' : ∀ x ∈ rest, 0 < x.2.quantity →
          x.2.quantity ≤ getStockD (decStock ledger pid0 e.quantity) x.1 := by
        intro x hx hxq
        have hxmem : x.1 ∈ rest.map Prod.fst := List.mem_map_of_mem Prod.fst hx
        have hxne : x.1 ≠ pid0 := by
          intro hcontra
          rw [hcontra] at hxmem
          exact (List.nodup_cons.mp hnodup).1 hxmem
        rw [getStockD_decStock_ne pid0 x.1 e.quantity hxne ledger]
        exact hstock x (List.mem_cons_of_mem _ hx) hxq
      have IH := linkedReserve_ok rest (decStock ledger pid0 e.quantity) hstock' hnodup'
      have hcond : (update_stock ledger pid0 e.quantity).1 = true := by rw [hupd]
      have hsnd2 : (update_stock ledger pid0 e.quantity).2 =
          decStock ledger pid0 e.quantity := by rw [hupd]
      simp only [linkedReserve, if_pos hq, if_pos hcond, hsnd2]
      refine ⟨IH.1, fun pid => ?_, fun it hit => ?_⟩
      · rw [itemsQty_cons]
        have h1 := IH.2.1 pid
        by_cases he : pid = pid0
        · subst he
          rw [getStockD_decStock_self pid e.quantity ledger hsome] at h1
          dsimp only
          rw [if_pos rfl]
          omega
        · rw [getStockD_decStock_ne pid0 pid e.quantity he ledger] at h1
          dsimp only
          rw [if_neg (fun hcontra => he hcontra.symm)]
          omega
      · rcases List.mem_cons.mp hit with h | h
        · subst h; rfl
        · exact IH.2.2 it h
    · have hstock' : ∀ x ∈ rest, 0 < x.2.quantity →
          x.2.quantity ≤ getStockD ledger x.1 :=
        fun x hx hxq => hstock x (List.mem_cons_of_mem _ hx) hxq
      have IH := linkedReserve_ok rest ledger hstock' hnodup'
      simp only [linkedReserve, if_neg hq]
      exact IH

/-- The standalone reservation loop accounts stock exactly: for every
product, the stock removed equals the quantity recorded in the returned
items, and every item's subtotal is the rounded product. -/
lemma standaloneReserve_ok : ∀ (picks : List Product) (ledger : List Product)
    (qdraws : Nat → Nat) (k : Nat),
    (∀ pid, getStockD (standaloneReserve ledger picks qdraws k).1 pid
        + itemsQty (standaloneReserve ledger picks qdraws k).2 pid = getStockD ledger pid)
    ∧ (∀ it ∈ (standaloneReserve ledger picks qdraws k).2, ItemOK it)
  | [], ledger, qdraws, k => by
    refine ⟨fun pid => ?_, by simp [standaloneReserve]⟩
    simp [standaloneReserve, itemsQty_nil]
  | p :: rest, ledger, qdraws, k => by
    by_cases ha : p.is_active = true
    · by_cases hres : (update_stock ledger p.product_id (randint 1 3 (qdraws k))).1 = true
      · have hacc := update_stock_true_stock ledger p.product_id
          (randint 1 3 (qdraws k)) hres
        have IH := standaloneReserve_ok rest
          (update_stock ledger p.product_id (randint 1 3 (qdraws k))).2 qdraws (k + 1)
        simp only [standaloneReserve, if_pos ha, if_pos hres]
        refine ⟨fun pid => ?_, fun it hit => ?_⟩
        · rw [itemsQty_cons]
          have h1 := IH.1 pid
          have h2 := hacc pid
          dsimp only
          by_cases he : pid = p.product_id
          · rw [if_pos he.symm, if_pos he] at *
            omega
          · rw [if_neg (fun hcontra => he hcontra.symm)]
            rw [if_neg he] at h2
            omega
        · rcases List.mem_cons.mp hit with h | h
          · subst h; rfl
          · exact IH.2 it h
      · have IH := standaloneReserve_ok rest ledger qdraws (k + 1)
        simp only [standaloneReserve, if_pos ha, if_neg hres]
        exact IH
    · have IH := standaloneReserve_ok rest ledger qdraws (k + 1)
      simp only [standaloneReserve, if_neg ha]
      exact IH

/-! ### Cart invariant through the session loop -/

lemma map_fst_cartAddQty (pid : Nat) (d : Int) :
    ∀ cart : List (Nat × CartEntry),
      (cartAddQty cart pid d).map Prod.fst = cart.map Prod.fst
  | [] => rfl
  | x :: xs => by
    by_cases hx : x.1 == pid
    · simp [cartAddQty, hx]
    · simp [cartAddQty, hx, map_fst_cartAddQty pid d xs]

lemma mem_cartAddQty (pid : Nat) (d : Int) :
    ∀ (cart : List (Nat × CartEntry)) (x : Nat × CartEntry),
      x ∈ cartAddQty cart pid d →
      x ∈ cart ∨ (x.1 = pid ∧ x.2.quantity = cartQty cart pid + d)
  | [], x, h => by simp [cartAddQty] at h
  | z :: zs, x, h => by
    by_cases hz : z.1 == pid
    · simp only [cartAddQty, if_pos hz, List.mem_cons] at h
      rcases h with h | h
      · refine Or.inr ⟨?_, ?_⟩
        · rw [h]
          exact (beq_iff_eq.mp hz)
        · rw [h, cartQty_cons, if_pos hz]
      · exact Or.inl (List.mem_cons_of_mem _ h)
    · simp only [cartAddQty, if_neg hz, List.mem_cons] at h
      rcases h with h | h
      · exact Or.inl (by simp [h])
      · rcases mem_cartAddQty pid d zs x h with h2 | ⟨h2, h3⟩
        · exact Or.inl (List.mem_cons_of_mem _ h2)
        · refine Or.inr ⟨h2, ?_⟩
          rw [cartQty_cons, if_neg hz]
          exact h3

lemma not_mem_keys_of_not_has {cart : List (Nat × CartEntry)} {pid : Nat}
    (h : ¬cartHas cart pid = true) : pid ∉ cart.map Prod.fst := by
  intro hmem
  obtain ⟨x, hx, hfst⟩ := List.mem_map.mp hmem
  apply h
  simp only [cartHas, List.any_eq_true]
  exact ⟨x, hx, by simp [hfst]⟩

/-- The add-to-cart block preserves the cart invariant against the same
frozen ledger: the capped addition keeps every positive quantity backed
by stock. -/
lemma cartAddBlock_ok (ledger : List Product) (cart : List (Nat × CartEntry))
    (pid : Nat) (price : ℚ) (r : Nat) (h : CartOK ledger cart) :
    CartOK ledger (cartAddBlock ledger cart pid price r) := by
  obtain ⟨hnd, hqty⟩ := h
  have h1 : CartOK ledger
      (if cartHas cart pid then cart else cart ++ [(pid, ⟨0, price⟩)]) := by
    by_cases hh : cartHas cart pid
    · rw [if_pos hh]; exact ⟨hnd, hqty⟩
    · rw [if_neg hh]
      constructor
      · rw [List.map_append]
        rw [List.nodup_append]
        refine ⟨hnd, by simp, ?_⟩
        intro a ha hb
        simp only [List.map_cons, List.map_nil, List.mem_singleton] at hb
        subst hb
        exact not_mem_keys_of_not_has hh ha
      · intro x hx hxq
        rcases List.mem_append.mp hx with h2 | h2
        · exact hqty x h2 hxq
        · simp only [List.mem_singleton] at h2
          subst h2
          simp at hxq
  simp only [cartAddBlock]
  by_cases hpos : 0 < min 3 (getStockD ledger pid -
      cartQty (if cartHas cart pid then cart else cart ++ [(pid, ⟨0, price⟩)]) pid)
  · rw [if_pos hpos]
    obtain ⟨hnd1, hqty1⟩ := h1
    constructor
    · rw [map_fst_cartAddQty]
      exact hnd1
    · intro x hx hxq
      rcases mem_cartAddQty pid _ _ x hx with h2 | ⟨h2, h3⟩
      · exact hqty1 x h2 hxq
      · rw [h2]
        have hb := randint_bounds _ hpos r
        have hmin : min 3 (getStockD ledger pid -
            cartQty (if cartHas cart pid then cart else cart ++ [(pid, ⟨0, price⟩)]) pid) ≤
            getStockD ledger pid -
            cartQty (if cartHas cart pid then cart else cart ++ [(pid, ⟨0, price⟩)]) pid :=
          min_le_right _ _
        omega
  · rw [if_neg hpos]
    exact h1

lemma cartViewedUpdate_cart_ok (L : List Product) (c : SlotChoice) (pt : String)
    (prod : Option Product) (st : SessState) (h : CartOK L st.cart) :
    CartOK L (cartViewedUpdate L c pt prod st).cart := by
  cases prod with
  | none => exact h
  | some p =>
    simp only [cartViewedUpdate]
    split
    · dsimp only
      split
      · exact cartAddBlock_ok L st.cart p.product_id p.base_price c.qtyDraw h
      · exact h
    · exact h

lemma sessStep_cart (L : List Product) (cats : List Category) (c : SlotChoice)
    (i t1 t2 : Nat) (st : SessState) :
    (sessStep L cats c i t1 t2 st).cart =
      (cartViewedUpdate L c
        (determine_page_type i st.page_views c.posDraw c.transDraw)
        (get_page_content (determine_page_type i st.page_views c.posDraw c.transDraw)
          L cats c.retryDraws c.finalDraw c.catDraw).1 st).cart := rfl

lemma sessLoop_cart_ok (L : List Product) (cats : List Category)
    (cs : Nat → SlotChoice) : ∀ (pairs : List (Nat × Nat)) (i : Nat) (st : SessState),
    CartOK L st.cart → CartOK L (sessLoop L cats cs pairs i st).cart
  | [], _, st, h => h
  | (t1, t2) :: rest, i, st, h => by
    simp only [sessLoop]
    apply sessLoop_cart_ok L cats cs rest (i + 1)
    rw [sessStep_cart]
    exact cartViewedUpdate_cart_ok L (cs i) _ _ st h

/-- The unfiltered cart dict of every synthesized session satisfies the
cart invariant against the ledger the session was generated over. -/
lemma generateSession_cart_ok (L : List Product) (cats : List Category)
    (d : Nat) (offs : List Nat) (cs : Nat → SlotChoice) (convDraw : ℚ) :
    CartOK L (generateSession L cats d offs cs convDraw).2.2 := by
  rw [generateSession_cart_eq]
  exact sessLoop_cart_ok L cats cs (zipTail (timeSlots d offs)) 0 ⟨[], [], []⟩
    ⟨by simp, by simp⟩

/-! ### Rounding algebra and the shared pricing contract -/

lemma isCent_round2 (q : ℚ) : IsCent (round2 q) := ⟨round (q * 100), rfl⟩

lemma isCent_zero : IsCent 0 := ⟨0, by norm_num⟩

lemma isCent_add {a b : ℚ} : IsCent a → IsCent b → IsCent (a + b) := by
  rintro ⟨m, rfl⟩ ⟨n, rfl⟩
  exact ⟨m + n, by push_cast; ring⟩

lemma isCent_sum : ∀ l : List ℚ, (∀ q ∈ l, IsCent q) → IsCent l.sum
  | [], _ => by simpa using isCent_zero
  | q :: l, h => by
    rw [List.sum_cons]
    exact isCent_add (h q (List.mem_cons_self _ _))
      (isCent_sum l (fun x hx => h x (List.mem_cons_of_mem _ hx)))

/-- Rounding to cents is the identity on whole-cent values. -/
lemma round2_eq_self {q : ℚ} (h : IsCent q) : round2 q = q := by
  obtain ⟨n, rfl⟩ := h
  unfold round2
  have h100 : ((n : ℚ) / 100) * 100 = (n : ℚ) := by field_simp
  rw [h100, round_intCast]

lemma discountChoice_mem (i : Nat) :
    discountChoice i ∈ [(1 : ℚ)/20, 1/10, 3/20, 1/5] := by
  unfold discountChoice
  have h4 : i % 4 = 0 ∨ i % 4 = 1 ∨ i % 4 = 2 ∨ i % 4 = 3 := by omega
  rcases h4 with h | h | h | h <;> rw [h] <;> simp

lemma mkTxn_items (items : List TxnItem) (coin : Bool) (idx : Nat) :
    (mkTxn items coin idx).items = items := rfl

/-- The shared pricing of both transaction paths satisfies the pricing
contract whenever the items carry rounded subtotals. -/
lemma mkTxn_ok (items : List TxnItem) (coin : Bool) (idx : Nat)
    (h : ∀ it ∈ items, ItemOK it) : TxnOK (mkTxn items coin idx) := by
  have hc : IsCent ((items.map (fun it => it.subtotal)).sum) := by
    apply isCent_sum
    intro q hq
    obtain ⟨it, hit, rfl⟩ := List.mem_map.mp hq
    rw [h it hit]
    exact isCent_round2 _
  have hsub : round2 ((items.map (fun it => it.subtotal)).sum)
      = (items.map (fun it => it.subtotal)).sum := round2_eq_self hc
  unfold TxnOK mkTxn
  dsimp only
  refine ⟨rfl, h, ?_, ?_, ?_⟩
  · cases coin with
    | false => exact Or.inl rfl
    | true =>
      refine Or.inr ⟨discountChoice idx, discountChoice_mem idx, ?_⟩
      rw [hsub, if_pos rfl]
  · rw [hsub]
  · intro h0
    rw [h0, sub_zero]

/-! ### Driver phase lemmas -/

/-- Every item the linked-reservation loop constructs carries the
rounded subtotal, regardless of reservation outcomes. -/
lemma linkedReserve_items_ok : ∀ (cart : List (Nat × CartEntry)) (ledger : List Product),
    ∀ it ∈ (linkedReserve ledger cart).2.1, ItemOK it
  | [], ledger, it, hit => by simp [linkedReserve] at hit
  | (pid0, e) :: rest, ledger, it, hit => by
    by_cases hq : 0 < e.quantity
    · simp only [linkedReserve, if_pos hq] at hit
      by_cases hres : (update_stock ledger pid0 e.quantity).1 = true
      · rw [if_pos hres] at hit
        dsimp only at hit
        rcases List.mem_cons.mp hit with h | h
        · subst h; rfl
        · exact linkedReserve_items_ok rest _ it h
      · rw [if_neg hres] at hit
        simp at hit
    · simp only [linkedReserve, if_neg hq] at hit
      exact linkedReserve_items_ok rest ledger it hit

/-- The session half of a driver iteration preserves per-product stock
plus sold-quantity accounting. -/
lemma sessionPhase_ledger_sold (P : GenParams) (cats : List Category)
    (c : IterChoice) (st : GenState) (pid : Nat) :
    getStockD (sessionPhase P cats c st).ledger pid
      + soldQty (sessionPhase P cats c st).transactions pid
      = getStockD st.ledger pid + soldQty st.transactions pid := by
  have hcart := generateSession_cart_ok st.ledger cats c.duration c.offs c.slots c.convDraw
  have hlr := linkedReserve_ok
    (generateSession st.ledger cats c.duration c.offs c.slots c.convDraw).2.2
    st.ledger hcart.2 hcart.1
  simp only [sessionPhase]
  split
  · split
    · split
      case isTrue h3 =>
        dsimp only
        rw [soldQty_append_singleton, mkTxn_items]
        have hacc := hlr.2.1 pid
        omega
      case isFalse h3 =>
        dsimp only
        have hitems : (linkedReserve st.ledger
            (generateSession st.ledger cats c.duration c.offs c.slots
              c.convDraw).2.2).2.1 = [] := by
          by_contra hne
          exact h3 ⟨hlr.1, hne⟩
        have hacc := hlr.2.1 pid
        rw [hitems, itemsQty_nil] at hacc
        omega
    · rfl
  · rfl

/-- The standalone half of a driver iteration preserves per-product
stock plus sold-quantity accounting. -/
lemma standalonePhase_ledger_sold (P : GenParams) (c : IterChoice)
    (st : GenState) (pid : Nat) :
    getStockD (standalonePhase P c st).ledger pid
      + soldQty (standalonePhase P c st).transactions pid
      = getStockD st.ledger pid + soldQty st.transactions pid := by
  have hsr := standaloneReserve_ok (standalonePicks st.ledger c.standIdxs)
    st.ledger c.standQtys 0
  simp only [standalonePhase]
  split
  · split
    case isTrue h2 =>
      dsimp only
      rw [soldQty_append_singleton, mkTxn_items]
      have hacc := hsr.1 pid
      omega
    case isFalse h2 =>
      dsimp only
      have hitems : (standaloneReserve st.ledger
          (standalonePicks st.ledger c.standIdxs) c.standQtys 0).2 = [] :=
        not_ne_iff.mp h2
      have hacc := hsr.1 pid
      rw [hitems, itemsQty_nil] at hacc
      omega
  · rfl

lemma iterStep_ledger_sold (P : GenParams) (cats : List Category)
    (c : IterChoice) (st : GenState) (pid : Nat) :
    getStockD (iterStep P cats c st).ledger pid
      + soldQty (iterStep P cats c st).transactions pid
      = getStockD st.ledger pid + soldQty st.transactions pid := by
  unfold iterStep
  rw [standalonePhase_ledger_sold, sessionPhase_ledger_sold]

/-- The session half either leaves the transaction stream and counter
unchanged, or emits exactly one transaction built by the shared pricing
function from a non-empty list of well-formed items, bumping the
counter. -/
lemma sessionPhase_txns (P : GenParams) (cats : List Category)
    (c : IterChoice) (st : GenState) :
    ((sessionPhase P cats c st).transactions = st.transactions
       ∧ (sessionPhase P cats c st).transaction_counter = st.transaction_counter)
    ∨ (∃ items coin idx, items ≠ [] ∧ (∀ it ∈ items, ItemOK it)
       ∧ (sessionPhase P cats c st).transactions = st.transactions ++ [mkTxn items coin idx]
       ∧ (sessionPhase P cats c st).transaction_counter = st.transaction_counter + 1) := by
  simp only [sessionPhase]
  split
  · split
    · split
      case isTrue h3 =>
        exact Or.inr ⟨_, _, _, h3.2, linkedReserve_items_ok _ _, rfl, rfl⟩
      case isFalse h3 =>
        exact Or.inl ⟨rfl, rfl⟩
    · exact Or.inl ⟨rfl, rfl⟩
  · exact Or.inl ⟨rfl, rfl⟩

/-- The standalone half either leaves the transaction stream and counter
unchanged, or emits exactly one transaction built by the shared pricing
function from a non-empty list of well-formed items, bumping the
counter. -/
lemma standalonePhase_txns (P : GenParams) (c : IterChoice) (st : GenState) :
    ((standalonePhase P c st).transactions = st.transactions
       ∧ (standalonePhase P c st).transaction_counter = st.transaction_counter)
    ∨ (∃ items coin idx, items ≠ [] ∧ (∀ it ∈ items, ItemOK it)
       ∧ (standalonePhase P c st).transactions = st.transactions ++ [mkTxn items coin idx]
       ∧ (standalonePhase P c st).transaction_counter = st.transaction_counter + 1) := by
  simp only [standalonePhase]
  split
  · split
    case isTrue h2 =>
      exact Or.inr ⟨_, _, _, h2,
        (standaloneReserve_ok (standalonePicks st.ledger c.standIdxs)
          st.ledger c.standQtys 0).2, rfl, rfl⟩
    case isFalse h2 =>
      exact Or.inl ⟨rfl, rfl⟩
  · exact Or.inl ⟨rfl, rfl⟩

/-- Consequences of a phase-transaction step: the counter advances by
exactly the number of emitted records, and well-formedness of all
records is preserved. -/
lemma phase_txns_good {st st' : GenState}
    (h : (st'.transactions = st.transactions
           ∧ st'.transaction_counter = st.transaction_counter)
       ∨ ∃ items coin idx, items ≠ [] ∧ (∀ it ∈ items, ItemOK it)
         ∧ st'.transactions = st.transactions ++ [mkTxn items coin idx]
         ∧ st'.transaction_counter = st.transaction_counter + 1) :
    (st'.transaction_counter + st.transactions.length
       = st.transaction_counter + st'.transactions.length)
    ∧ ((∀ t ∈ st.transactions, GoodTxn t) → ∀ t ∈ st'.transactions, GoodTxn t) := by
  rcases h with ⟨h1, h2⟩ | ⟨items, coin, idx, hne, hok, h1, h2⟩
  · rw [h1, h2]
    exact ⟨rfl, fun hq => hq⟩
  · rw [h1, h2]
    constructor
    · rw [List.length_append, List.length_singleton]
      omega
    · intro hq t ht
      rcases List.mem_append.mp ht with h | h
      · exact hq t h
      · rw [List.mem_singleton] at h
        subst h
        refine ⟨mkTxn_ok items coin idx hok, ?_⟩
        rw [mkTxn_items]
        exact hne

lemma runGen_ledger_sold (P : GenParams) (maxIter : Nat) (cats : List Category)
    (choices : Nat → IterChoice) : ∀ (fuel : Nat) (st : GenState) (pid : Nat),
    getStockD (runGen P maxIter cats choices fuel st).ledger pid
      + soldQty (runGen P maxIter cats choices fuel st).transactions pid
      = getStockD st.ledger pid + soldQty st.transactions pid
  | 0, st, pid => rfl
  | fuel + 1, st, pid => by
    simp only [runGen]
    split
    · rw [runGen_ledger_sold P maxIter cats choices fuel _ pid, iterStep_ledger_sold]
    · rfl

lemma runGen_good (P : GenParams) (maxIter : Nat) (cats : List Category)
    (choices : Nat → IterChoice) : ∀ (fuel : Nat) (st : GenState),
    ((runGen P maxIter cats choices fuel st).transaction_counter
        + st.transactions.length
       = st.transaction_counter
        + (runGen P maxIter cats choices fuel st).transactions.length)
    ∧ ((∀ t ∈ st.transactions, GoodTxn t) →
        ∀ t ∈ (runGen P maxIter cats choices fuel st).transactions, GoodTxn t)
  | 0, st => ⟨rfl, fun h => h⟩
  | fuel + 1, st => by
    simp only [runGen]
    split
    · have hstep1 := phase_txns_good
        (sessionPhase_txns P cats (choices st.iteration)
          { st with iteration := st.iteration + 1 })
      have hstep2 := phase_txns_good
        (standalonePhase_txns P (choices st.iteration)
          (sessionPhase P cats (choices st.iteration)
            { st with iteration := st.iteration + 1 }))
      have IH := runGen_good P maxIter cats choices fuel
        (iterStep P cats (choices st.iteration) { st with iteration := st.iteration + 1 })
      have hbase1 : ({ st with iteration := st.iteration + 1 } : GenState).transactions
          = st.transactions := rfl
      have hbase2 : ({ st with iteration := st.iteration + 1 } : GenState).transaction_counter
          = st.transaction_counter := rfl
      unfold iterStep at IH ⊢
      constructor
      · have h1 := hstep1.1
        have h2 := hstep2.1
        have h3 := IH.1
        rw [hbase1, hbase2] at h1
        omega
      · intro hq
        exact IH.2 (hstep2.2 (hstep1.2 hq))
    · exact ⟨rfl, fun h => h⟩

/-! ### C1, C7 and C8: driver-level properties -/

/-- C1: stock conservation.  Over any complete run of the generation
loop (any fuel, any target counts, any ceiling, any random draws), every
product's initial stock minus its final current stock equals the summed
quantities of that product across the items of all emitted transactions,
linked and standalone.  In particular no reservation ever destroys stock
unaccounted for by an emitted transaction item: within an iteration the
cart invariant makes every linked reservation succeed, so an abandoned
partial reservation never actually occurs, and a standalone reservation
succeeds exactly when its item is recorded. -/
theorem stock_conservation (P : GenParams) (maxIter : Nat) (cats : List Category)
    (choices : Nat → IterChoice) (fuel : Nat) (L0 : List Product) (pid : Nat) :
    getStockD L0 pid
      - getStockD (runGen P maxIter cats choices fuel (initState L0)).ledger pid
      = soldQty (runGen P maxIter cats choices fuel (initState L0)).transactions pid := by
  have h := runGen_ledger_sold P maxIter cats choices fuel (initState L0) pid
  have h2 : getStockD (initState L0).ledger pid = getStockD L0 pid := rfl
  have h3 : soldQty (initState L0).transactions pid = 0 := rfl
  rw [h2, h3] at h
  omega

/-- C7: transaction totals.  Every transaction emitted by a complete run
satisfies the pricing contract TxnOK: the stored subtotal is the rounded
sum of item subtotals, each item subtotal is the rounded quantity-price
product, the discount is zero or the rounded product of the subtotal
with a rate in {5%, 10%, 15%, 20%}, the total is the rounded
difference, and with the discount draw disabled (discount zero) the
total equals the subtotal exactly. -/
theorem transaction_totals (P : GenParams) (maxIter : Nat) (cats : List Category)
    (choices : Nat → IterChoice) (fuel : Nat) (L0 : List Product) :
    ∀ t ∈ (runGen P maxIter cats choices fuel (initState L0)).transactions,
      TxnOK t := by
  intro t ht
  have h0 : ∀ t ∈ (initState L0).transactions, GoodTxn t := by
    intro t ht
    have he : (initState L0).transactions = [] := rfl
    rw [he] at ht
    simp at ht
  exact ((runGen_good P maxIter cats choices fuel (initState L0)).2 h0 t ht).1

/-- Witness for C7: a one-iteration run emitting a single standalone
transaction of one unit of a 10-priced product; the emitted record is
(items [(product 0, qty 1, price 10, subtotal 10)], subtotal 10,
discount 0, total 10) and satisfies the pricing contract. -/
theorem transaction_totals_witness :
    TxnOK ⟨[⟨0, 1, 10, 10⟩], 10, 0, 10⟩ :=
  transaction_totals ⟨0, 5⟩ 10 []
    (fun _ => ⟨30, [], (fun _ => ⟨0, 0, [], 0, 0, false, 0⟩), 1, false, 0,
      true, [0], (fun _ => 0), false, 0⟩) 1 [⟨0, 0, 10, 10, true⟩]
    ⟨[⟨0, 1, 10, 10⟩], 10, 0, 10⟩ (by with_unfolding_all decide)

/-- C8: non-empty transactions.  In every complete run the transaction
counter equals the number of emitted transaction records (an attempt
that reserves zero items is discarded without emission and without
consuming a unit of the target count), and every emitted record has at
least one item. -/
theorem transactions_nonempty_counted (P : GenParams) (maxIter : Nat)
    (cats : List Category) (choices : Nat → IterChoice) (fuel : Nat)
    (L0 : List Product) :
    (runGen P maxIter cats choices fuel (initState L0)).transaction_counter
      = (runGen P maxIter cats choices fuel (initState L0)).transactions.length
    ∧ ∀ t ∈ (runGen P maxIter cats choices fuel (initState L0)).transactions,
        t.items ≠ [] := by
  have h := runGen_good P maxIter cats choices fuel (initState L0)
  have h0 : ∀ t ∈ (initState L0).transactions, GoodTxn t := by
    intro t ht
    have he : (initState L0).transactions = [] := rfl
    rw [he] at ht
    simp at ht
  constructor
  · have h1 := h.1
    have h2 : (initState L0).transactions.length = 0 := rfl
    have h3 : (initState L0).transaction_counter = 0 := rfl
    rw [h2, h3] at h1
    omega
  · intro t ht
    exact (h.2 h0 t ht).2

/-- Witness for C8: the same one-iteration run emits exactly one
transaction, the counter reads 1, and that record's item list is
non-empty. -/
theorem transactions_nonempty_counted_witness :
    (runGen ⟨0, 5⟩ 10 []
      (fun _ => ⟨30, [], (fun _ => ⟨0, 0, [], 0, 0, false, 0⟩), 1, false, 0,
        true, [0], (fun _ => 0), false, 0⟩) 1
      (initState [⟨0, 0, 10, 10, true⟩])).transaction_counter = 1
    ∧ (⟨[⟨0, 1, 10, 10⟩], 10, 0, 10⟩ : Txn).items ≠ [] := by
  constructor
  · rw [(transactions_nonempty_counted ⟨0, 5⟩ 10 []
      (fun _ => ⟨30, [], (fun _ => ⟨0, 0, [], 0, 0, false, 0⟩), 1, false, 0,
        true, [0], (fun _ => 0), false, 0⟩) 1 [⟨0, 0, 10, 10, true⟩]).1]
    with_unfolding_all decide
  · exact (transactions_nonempty_counted ⟨0, 5⟩ 10 []
      (fun _ => ⟨30, [], (fun _ => ⟨0, 0, [], 0, 0, false, 0⟩), 1, false, 0,
        true, [0], (fun _ => 0), false, 0⟩) 1 [⟨0, 0, 10, 10, true⟩]).2
      ⟨[⟨0, 1, 10, 10⟩], 10, 0, 10⟩ (by with_unfolding_all decide)

end ECom
